import Mathlib

/-!
Shallow embedding of the reminder/digest scheduling core of DCReminderBot
(src/cogs/reminders.py and src/db.py), together with theorems checking the
specification's claims about it.

Strings are modelled as `List Char`; Python `int` epochs as `Int`;
offset second counts (products of a decimal literal and a unit
multiplier) as `Nat`.
-/

namespace DCReminder

instance {ε α : Type} [DecidableEq ε] [DecidableEq α] : DecidableEq (Except ε α) := fun a b =>
  match a, b with
  | .ok x, .ok y => if h : x = y then .isTrue (by rw [h]) else .isFalse (by simp [h])
  | .error x, .error y => if h : x = y then .isTrue (by rw [h]) else .isFalse (by simp [h])
  | .ok _, .error _ => .isFalse (by simp)
  | .error _, .ok _ => .isFalse (by simp)

/-- ASCII whitespace recognised by Python's `str.strip()` and by `\s`
in the duration regex (space, tab, newline, carriage return, vertical
tab, form feed). -/
def isSpaceChar (c : Char) : Bool :=
  c = ' ' || c = '\t' || c = '\n' || c = '\r' || c = '\x0b' || c = '\x0c'

/-- Drop leading whitespace characters. -/
def dropSpaces : List Char → List Char
  | [] => []
  | c :: cs => if isSpaceChar c then dropSpaces cs else c :: cs

/-- Model of `offset_str.split(",")` from reminders.py line 29: split a
character list at every comma; `[] ↦ [[]]`, separators are consumed. -/
def splitComma : List Char → List (List Char)
  | [] => [[]]
  | c :: cs =>
    if c = ',' then [] :: splitComma cs
    else
      match splitComma cs with
      | [] => [[c]]
      | p :: ps => (c :: p) :: ps

/-- Numeric value of a list of decimal digit characters, most
significant first (Python `int(m.group(1))`). -/
def digitsToNat (ds : List Char) : Nat :=
  ds.foldl (fun n c => n * 10 + (c.toNat - 48)) 0

/-- Unit multiplier table from reminders.py line 38, case-insensitive
per `re.IGNORECASE`: s=1, m=60, h=3600, d=86400, w=604800. -/
def unitMult (c : Char) : Option Nat :=
  if c = 's' || c = 'S' then some 1
  else if c = 'm' || c = 'M' then some 60
  else if c = 'h' || c = 'H' then some 3600
  else if c = 'd' || c = 'D' then some 86400
  else if c = 'w' || c = 'W' then some 604800
  else none

/-- Match one token against `DURATION_RE`, the anchored regex
`^\s*(\d+)\s*([smhdw])\s*$` with `re.IGNORECASE` (reminders.py line 24),
returning `value * multiplier` on a match. -/
def matchToken (cs : List Char) : Option Nat :=
  let cs1 := dropSpaces cs
  let ds := cs1.takeWhile Char.isDigit
  let rest := cs1.dropWhile Char.isDigit
  if ds.isEmpty then none
  else
    match dropSpaces rest with
    | [] => none
    | u :: rest2 =>
      match unitMult u with
      | none => none
      | some mult =>
        if (dropSpaces rest2).isEmpty then some (digitsToNat ds * mult)
        else none

/-- The loop body of `parse_offset_str` (reminders.py lines 28-39):
parts whose strip is empty are skipped (`if not p: continue`); a part
that fails `DURATION_RE` raises `ValueError`; otherwise its
`value * multiplier` is appended. -/
def parseParts : List (List Char) → Except Unit (List Nat)
  | [] => .ok []
  | p :: ps =>
    if p.all isSpaceChar then parseParts ps
    else
      match matchToken p with
      | none => .error ()
      | some n =>
        match parseParts ps with
        | .error e => .error e
        | .ok rest => .ok (n :: rest)

/-- Model of `sorted(set(out), reverse=True)` from reminders.py line 41:
deduplicate, then sort in descending order. -/
def sortedSetDesc (l : List Nat) : List Nat :=
  List.insertionSort (· ≥ ·) l.dedup

/-- Embedding of `parse_offset_str` (reminders.py lines 26-42): split on commas,
skip empty parts, match each remaining part against `DURATION_RE`
(raising `ValueError`, modelled as `.error ()`, on a mismatch), and
return the distinct second counts sorted descending. -/
def parse_offset_str (s : List Char) : Except Unit (List Nat) :=
  match parseParts (splitComma s) with
  | .error e => .error e
  | .ok out => .ok (sortedSetDesc out)

/-- Embedding of `default_offsets(now_utc, due_utc)` (reminders.py lines 44-67):
the lead-time bucket table selecting default reminder offsets. -/
def default_offsets (now_utc due_utc : Int) : List Int :=
  let lead := due_utc - now_utc
  let day : Int := 86400
  let hour : Int := 3600
  if lead ≥ 3 * day then [3 * day, 2 * day, day]
  else if 2 * day ≤ lead ∧ lead < 3 * day then [day]
  else if 12 * hour ≤ lead ∧ lead < 2 * day then [4 * hour]
  else if 4 * hour ≤ lead ∧ lead < 12 * hour then [2 * hour]
  else if hour ≤ lead ∧ lead < 4 * hour then [hour]
  else if 30 * 60 ≤ lead ∧ lead < hour then [30 * 60]
  else if lead > 10 * 60 then [10 * 60] else [max (lead - 60) 60]

/-! ### `/project create` and `/project add-reminder` (reminders.py) -/

/-- Errors surfaced synchronously by `project_create`
(reminders.py lines 130-131 and 139-140). -/
inductive CreateError
  | TooSoon
  | InvalidDuration
deriving DecidableEq

/-- Python truthiness of the optional `custom_offsets` argument
(`if custom_offsets:` at reminders.py line 135): `None` and the empty
string are falsy. -/
def customTruthy : Option (List Char) → Bool
  | none => false
  | some s => !s.isEmpty

/-- Offset selection in `project_create` (reminders.py lines 133-140):
explicit offsets are parsed when the argument is truthy (a
`ValueError` becomes the `InvalidDuration` reply), otherwise
`default_offsets` is used. -/
def computeOffsets (now_utc due_utc : Int) (custom_offsets : Option (List Char)) :
    Except CreateError (List Int) :=
  if customTruthy custom_offsets then
    match parse_offset_str (custom_offsets.getD []) with
    | .error _ => .error .InvalidDuration
    | .ok offs => .ok (offs.map (fun n : Nat => (n : Int)))
  else .ok (default_offsets now_utc due_utc)

/-- Candidate filter and fallback in `project_create`
(reminders.py lines 142-152): keep `due - off` when it exceeds
`now + 30`; if nothing survives, try the single fallback
`max(due - 300, now + 60)`, kept only when it is `< due`. -/
def reminderTimestamps (now_utc due_utc : Int) (offsets : List Int) : List Int :=
  let ts0 := offsets.filterMap (fun off =>
    let ts := due_utc - off
    if ts > now_utc + 30 then some ts else none)
  if ts0.isEmpty then
    let fallback := max (due_utc - 300) (now_utc + 60)
    if fallback < due_utc then [fallback] else []
  else ts0

/-- Embedding of `project_create` after due-string parsing (reminders.py
lines 127-177), returning the `remind_ts` values it persists: reject
`due_utc ≤ now_utc + 60` as `TooSoon`, compute offsets, filter them
into reminder timestamps. -/
def project_create (now_utc due_utc : Int) (custom_offsets : Option (List Char)) :
    Except CreateError (List Int) :=
  if due_utc ≤ now_utc + 60 then .error .TooSoon
  else
    match computeOffsets now_utc due_utc custom_offsets with
    | .error e => .error e
    | .ok offs => .ok (reminderTimestamps now_utc due_utc offs)

/-- Embedding of `project_add_reminder` for an existing project with due time
`due_utc` (reminders.py lines 217-228), returning the `remind_ts`
values inserted: parse the offset string, then insert `due - off` for
every offset with `due - off > now + 30`. -/
def project_add_reminder (now_utc due_utc : Int) (offset : List Char) :
    Except Unit (List Int) :=
  match parse_offset_str offset with
  | .error e => .error e
  | .ok offs => .ok ((offs.map (fun n : Nat => (n : Int))).filterMap (fun off =>
      let ts := due_utc - off
      if ts > now_utc + 30 then some ts else none))

/-! ### Trigger store persistence (db.py) -/

/-- Rows visible to other readers of the SQLite database: `projects`
as `(id, due_ts)` pairs and `reminders` as `(project_id, remind_ts)`
pairs (db.py schema lines 19-44). -/
structure DBState where
  projects : List (Nat × Int)
  reminders : List (Nat × Int)
deriving DecidableEq

/-- Fault injected into the persistence sequence of `project_create`:
`ok` (no failure) or `failTriggers` (the `executemany` inserting the
reminder rows raises after the project insert already committed). -/
inductive StoreFault
  | ok
  | failTriggers
deriving DecidableEq

/-- The persistence tail of `project_create` (reminders.py
lines 154-177) over `Database.execute` / `Database.executemany`
(db.py lines 89-99), each of which runs one statement and commits
immediately, so the project insert is durable before the reminder
insert starts. Returns the committed state and whether the whole
sequence succeeded. -/
def createDeadlinePersist (db : DBState) (project_id : Nat) (due_utc : Int)
    (reminder_ts : List Int) (fault : StoreFault) : DBState × Bool :=
  let db1 : DBState := { db with projects := db.projects ++ [(project_id, due_utc)] }
  match fault with
  | .failTriggers => (db1, false)
  | .ok =>
    ({ db1 with reminders := db1.reminders ++ reminder_ts.map (fun ts => (project_id, ts)) },
      true)

/-! ### Timezone handling and `/deadlines configure` (reminders.py) -/

/-- Python `str.strip()`: drop leading and trailing whitespace. -/
def stripChars (s : List Char) : List Char :=
  (dropSpaces (dropSpaces s).reverse).reverse

/-- Result of `parse_timezone`: either `timezone.utc` or a resolved
`ZoneInfo` for the given name. -/
inductive Tz
  | utc
  | zone (name : List Char)
deriving DecidableEq

/-- Embedding of `parse_timezone` (reminders.py lines 13-22), with `resolve`
modelling whether `ZoneInfo(name)` succeeds in the running
environment: default the name to "UTC", strip it, special-case
"UTC"/"Z" case-insensitively, and fall back to UTC when `ZoneInfo`
raises. -/
def parse_timezone (resolve : List Char → Bool) (tz_name : Option (List Char)) : Tz :=
  let name := stripChars (tz_name.getD "UTC".data)
  if name.map Char.toUpper = "UTC".data ∨ name.map Char.toUpper = "Z".data then .utc
  else if resolve name then .zone name else .utc

/-- Model of `datetime.strptime(time_hhmm, "%H:%M")` (reminders.py line 252):
one or two digits for the hour (0-23), a colon, one or two digits for
the minute (0-59), nothing else. -/
def strptimeHM (s : List Char) : Option (Nat × Nat) :=
  let ds := s.takeWhile Char.isDigit
  let rest := s.dropWhile Char.isDigit
  if ds.isEmpty || decide (ds.length > 2) then none
  else
    match rest with
    | ':' :: rest2 =>
      let ms := rest2.takeWhile Char.isDigit
      let rest3 := rest2.dropWhile Char.isDigit
      if ms.isEmpty || decide (ms.length > 2) || !rest3.isEmpty then none
      else
        let h := digitsToNat ds
        let m := digitsToNat ms
        if h ≤ 23 && m ≤ 59 then some (h, m) else none
    | _ => none

/-- The spec's error taxonomy for `configureDigest`. -/
inductive ConfigError
  | InvalidTime
  | InvalidTimezone
deriving DecidableEq

/-- The per-guild config row written by `deadlines_configure`
(db.py `config` table, lines 9-17). -/
structure ConfigRow where
  deadlines_channel_id : Nat
  deadlines_digest_time : List Char
  timezone : List Char
deriving DecidableEq

/-- Embedding of `deadlines_configure` (reminders.py lines 248-259): reject a bad
`HH:MM` string; when a timezone argument is given, call
`parse_timezone` and DISCARD the result (`_ = parse_timezone(...)`,
which never raises); then upsert the config, storing the given
timezone string verbatim, or keeping the existing one ("UTC" if no
config row exists) when the argument is absent or empty. -/
def deadlines_configure (resolve : List Char → Bool) (existing : Option ConfigRow)
    (channel_id : Nat) (time_hhmm : List Char) (tz_arg : Option (List Char)) :
    Except ConfigError ConfigRow :=
  if (strptimeHM time_hhmm).isNone then .error .InvalidTime
  else
    let _validated := match tz_arg with
      | some s => some (parse_timezone resolve s)
      | none => none
    let storedTz := match tz_arg with
      | some s =>
        if s.isEmpty then (match existing with | some c => c.timezone | none => "UTC".data)
        else s
      | none => match existing with | some c => c.timezone | none => "UTC".data
    .ok { deadlines_channel_id := channel_id,
          deadlines_digest_time := time_hhmm,
          timezone := storedTz }

/-! ### The reminder poller `_reminder_loop` (reminders.py lines 269-307) -/

/-- One row of the `reminders` table as seen by the poller. -/
structure TriggerRow where
  rid : Nat
  remind_ts : Int
  sent : Bool
deriving DecidableEq

instance : DecidableRel (fun a b : TriggerRow => a.remind_ts ≤ b.remind_ts) :=
  fun a b => Int.decLe a.remind_ts b.remind_ts

/-- The poller's selection query (reminders.py lines 272-280):
rows with `sent = 0` and `remind_ts BETWEEN now - 60 AND now + 30`,
ordered by `remind_ts` ascending. -/
def selectDue (db : List TriggerRow) (now : Int) : List TriggerRow :=
  List.insertionSort (fun a b => a.remind_ts ≤ b.remind_ts)
    (db.filter (fun r => !r.sent && decide (now - 60 ≤ r.remind_ts)
      && decide (r.remind_ts ≤ now + 30)))

/-- Model of `UPDATE reminders SET sent = 1 WHERE id = ?`
(reminders.py lines 303 and 307). -/
def markSent (db : List TriggerRow) (id : Nat) : List TriggerRow :=
  db.map (fun r => if r.rid = id then { r with sent := true } else r)

/-- The per-row body of the poller (reminders.py lines 283-307):
for each selected row, attempt delivery (outcome given by the
`deliver` oracle — `false` models `channel.send` raising), then mark
the row sent; the `except` branch also marks the row sent, so the
mark happens on both paths and a failure never stops the loop.
Returns the updated table and the ids attempted, in order. -/
def processRows (deliver : Nat → Bool) : List TriggerRow → List TriggerRow →
    List TriggerRow × List Nat
  | db, [] => (db, [])
  | db, r :: rs =>
    let _outcome := deliver r.rid
    let db1 := markSent db r.rid
    let res := processRows deliver db1 rs
    (res.1, r.rid :: res.2)

/-- One execution of `_reminder_loop`: select the due unsent rows,
then process each in order. -/
def pollCycle (deliver : Nat → Bool) (db : List TriggerRow) (now : Int) :
    List TriggerRow × List Nat :=
  processRows deliver db (selectDue db now)

/-- Repeated poll cycles over one process lifetime (the
`tasks.loop(seconds=30.0)` scheduler runs cycles strictly
sequentially): fold `pollCycle` over a list of poll times,
accumulating all delivery-attempt ids. -/
def runCycles (deliver : Nat → Bool) (db : List TriggerRow) :
    List Int → List TriggerRow × List Nat
  | [] => (db, [])
  | t :: ts =>
    let c := pollCycle deliver db t
    let res := runCycles deliver c.1 ts
    (res.1, c.2 ++ res.2)

/-! ### The digest poller `_digest_loop` (reminders.py lines 313-365) -/

/-- A debounce key: the code builds the string
`f"{guild.id}:{guild_now.strftime('%Y-%m-%d')}"` (line 333); since the
guild id is decimal digits and the date part is fixed-format, the pair
(guild id, local date string) is an equivalent key. -/
def digestKey (guild_id : Nat) (local_date : List Char) : Nat × List Char :=
  (guild_id, local_date)

/-- The per-guild body of `_digest_loop` (reminders.py lines 331-365)
for one evaluation: `hour_match` is whether the guild-local hour and
minute equal the configured digest time (line 331); on a match, the
key is looked up in the in-memory `_digest_cache` and, when absent,
added BEFORE any delivery work; `has_rows` is whether the 7-day
project query returns rows (`if not rows: continue`, line 350);
`delivery_ok` is the outcome of `channel.send` — an exception is
caught and only logged (lines 363-365), leaving the cache unchanged.
Returns the new cache and whether a delivery was attempted. -/
def digest_step (cache : List (Nat × List Char)) (guild_id : Nat) (local_date : List Char)
    (hour_match : Bool) (has_rows : Bool) (delivery_ok : Bool) :
    List (Nat × List Char) × Bool :=
  if hour_match then
    let key := digestKey guild_id local_date
    if key ∈ cache then (cache, false)
    else
      let cache1 := key :: cache
      let _outcome := delivery_ok
      if has_rows then (cache1, true) else (cache1, false)
  else (cache, false)

/-! ### Statements taken from the spec's words (for refinement claims) -/

/-- The spec's default-offset lead-time table (spec.md section 4.1),
written from the spec's words as a function of the lead time
`L = due - now`: `L ≥ 3d → {3d,2d,1d}`; `2d ≤ L < 3d → {1d}`;
`12h ≤ L < 2d → {4h}`; `4h ≤ L < 12h → {2h}`; `1h ≤ L < 4h → {1h}`;
`30m ≤ L < 1h → {30m}`; `10m < L < 30m → {10m}`;
`L ≤ 10m → {max(L - 1m, 1m)}`. -/
def spec_default_offsets (now_utc due_utc : Int) : List Int :=
  let L := due_utc - now_utc
  if L ≥ 3 * 86400 then [3 * 86400, 2 * 86400, 86400]
  else if 2 * 86400 ≤ L then [86400]
  else if 12 * 3600 ≤ L then [4 * 3600]
  else if 4 * 3600 ≤ L then [2 * 3600]
  else if 3600 ≤ L then [3600]
  else if 30 * 60 ≤ L then [30 * 60]
  else if 10 * 60 < L then [10 * 60]
  else [max (L - 60) 60]

/-- Every row of the table whose id is `i` carries `sent = 1`
(the poller's postcondition for a processed trigger id). -/
def rowSent (db : List TriggerRow) (i : Nat) : Prop :=
  ∀ r ∈ db, r.rid = i → r.sent = true

instance (db : List TriggerRow) (i : Nat) : Decidable (rowSent db i) :=
  List.decidableBAll _ db

end DCReminder

namespace DCReminder

example : parse_offset_str "3d, 24h, 4h, 30m".data =
    .ok [259200, 86400, 14400, 1800] := by decide

example : parse_offset_str "3d,,2d".data = .ok [259200, 172800] := by decide

example : parse_offset_str ",,,".data = .ok [] := by decide

example : parse_offset_str "0s".data = .ok [0] := by decide

example : parse_offset_str "3d,x".data = .error () := by decide

example : default_offsets 0 (4 * 86400) = [259200, 172800, 86400] := by decide

example : default_offsets 0 1800 = [1800] := by decide

example : default_offsets 0 300 = [240] := by decide

end DCReminder

namespace DCReminder

/-- C3: with no explicit offsets, `default_offsets` realises exactly
the spec's lead-time table (lead ≥ 3d → {3d,2d,1d}; 2d ≤ lead < 3d →
{1d}; 12h ≤ lead < 2d → {4h}; 4h ≤ lead < 12h → {2h}; 1h ≤ lead < 4h
→ {1h}; 30m ≤ lead < 1h → {30m}; 10m < lead < 30m → {10m}; lead ≤
10m → {max(lead − 60, 60)}); in particular lead 4·86400 gives
{3d,2d,1d}, lead 1800 gives {1800}, and lead 300 gives {240}. -/
theorem default_offsets_matches_spec_table :
    (∀ now_utc due_utc : Int,
      default_offsets now_utc due_utc = spec_default_offsets now_utc due_utc)
    ∧ default_offsets 0 (4 * 86400) = [3 * 86400, 2 * 86400, 86400]
    ∧ default_offsets 0 1800 = [1800]
    ∧ default_offsets 0 300 = [240] := by
  refine ⟨fun now_utc due_utc => ?_, by decide, by decide, by decide⟩
  simp only [default_offsets, spec_default_offsets]
  split_ifs <;> first | rfl | omega

/-- C9 (implicit): `default_offsets` is total and never returns the
empty list; whenever the lead time is at most 10 minutes (including
zero and negative leads) it returns the single offset
`max(lead − 60, 60)`, which is at least 60 seconds. -/
theorem default_offsets_total_nonempty :
    ∀ now_utc due_utc : Int,
      default_offsets now_utc due_utc ≠ []
      ∧ (due_utc - now_utc ≤ 10 * 60 →
          default_offsets now_utc due_utc = [max (due_utc - now_utc - 60) 60]
          ∧ (60 : Int) ≤ max (due_utc - now_utc - 60) 60) := by
  intro now_utc due_utc
  constructor
  · simp only [default_offsets]
    split_ifs <;> simp
  · intro h
    refine ⟨?_, le_max_right _ _⟩
    simp only [default_offsets]
    split_ifs <;> first | rfl | (exfalso; omega)

/-- Closed witness for `default_offsets_total_nonempty` at
`now = 0`, `due = 300`. -/
theorem default_offsets_total_nonempty_at_300 :
    default_offsets 0 300 ≠ []
    ∧ default_offsets 0 300 = [max (300 - 0 - 60) 60]
    ∧ (60 : Int) ≤ max (300 - 0 - 60) 60 :=
  ⟨(default_offsets_total_nonempty 0 300).1,
    (default_offsets_total_nonempty 0 300).2 (by decide)⟩

/-- C5 counterexample: starting from an empty store, a failure in the
reminder insert (`executemany`) after the project insert already
committed leaves the project row `(1, 1000)` persisted with no
reminder rows — the claimed all-or-nothing atomicity does not hold. -/
theorem createDeadlinePersist_partial_on_fault :
    createDeadlinePersist ⟨[], []⟩ 1 1000 [700] .failTriggers
      = (⟨[(1, 1000)], []⟩, false) := by decide

/-- C5 amended: `project_create` persists the event and its triggers
as two separately committed statements, not one atomic unit: the
event row is committed in every outcome, all triggers follow on the
fault-free path, and a failure while inserting triggers leaves the
event row behind with no new trigger rows (partial state visible to
readers). -/
theorem createDeadlinePersist_two_commits :
    ∀ (db : DBState) (pid : Nat) (due : Int) (ts : List Int) (fault : StoreFault),
      (pid, due) ∈ (createDeadlinePersist db pid due ts fault).1.projects
      ∧ ((createDeadlinePersist db pid due ts fault).2 = true →
          ∀ t ∈ ts, (pid, t) ∈ (createDeadlinePersist db pid due ts fault).1.reminders)
      ∧ ((createDeadlinePersist db pid due ts fault).2 = false →
          (createDeadlinePersist db pid due ts fault).1.reminders = db.reminders) := by
  intro db pid due ts fault
  cases fault with
  | ok =>
    refine ⟨by simp [createDeadlinePersist], fun _ t ht => ?_,
      fun h => by simp [createDeadlinePersist] at h⟩
    simp only [createDeadlinePersist, List.mem_append]
    exact Or.inr (List.mem_map.mpr ⟨t, ht, rfl⟩)
  | failTriggers =>
    exact ⟨by simp [createDeadlinePersist], fun h => by simp [createDeadlinePersist] at h,
      fun _ => rfl⟩

/-- Closed witness for `createDeadlinePersist_two_commits` on the
fault-free path from an empty store. -/
theorem createDeadlinePersist_two_commits_at_ok :
    (1, 1000) ∈ (createDeadlinePersist ⟨[], []⟩ 1 1000 [700] .ok).1.projects
    ∧ (1, 700) ∈ (createDeadlinePersist ⟨[], []⟩ 1 1000 [700] .ok).1.reminders :=
  ⟨(createDeadlinePersist_two_commits ⟨[], []⟩ 1 1000 [700] .ok).1,
    (createDeadlinePersist_two_commits ⟨[], []⟩ 1 1000 [700] .ok).2.1 (by decide) 700
      (by decide)⟩

/-- C6 counterexample: with a resolver on which every lookup fails
(no tzdata / unknown name), configuring with timezone "Not/A/Zone"
returns Ok and stores the unresolvable string verbatim instead of the
InvalidTimezone error, and `parse_timezone` silently falls back to
UTC. -/
theorem deadlines_configure_accepts_bad_tz :
    deadlines_configure (fun _ => false) none 42 "09:00".data (some "Not/A/Zone".data)
      = .ok ⟨42, "09:00".data, "Not/A/Zone".data⟩
    ∧ parse_timezone (fun _ => false) (some "Not/A/Zone".data) = .utc := by decide

/-- C6 amended: `deadlines_configure` never returns InvalidTimezone
(the only error it can return is InvalidTime for a bad HH:MM string);
a truthy timezone argument is stored verbatim whatever the resolver
says, and an unresolvable timezone only surfaces later as
`parse_timezone` silently computing in UTC. -/
theorem deadlines_configure_never_invalid_timezone :
    ∀ (resolve : List Char → Bool) (existing : Option ConfigRow) (channel_id : Nat)
      (time_hhmm s : List Char),
      (∀ e, deadlines_configure resolve existing channel_id time_hhmm (some s) = .error e →
        e = .InvalidTime)
      ∧ ((strptimeHM time_hhmm).isSome → s ≠ [] →
          deadlines_configure resolve existing channel_id time_hhmm (some s)
            = .ok ⟨channel_id, time_hhmm, s⟩)
      ∧ (resolve (stripChars s) = false → parse_timezone resolve (some s) = .utc) := by
  intro resolve existing channel_id time_hhmm s
  refine ⟨?_, ?_, ?_⟩
  · intro e he
    simp only [deadlines_configure] at he
    split_ifs at he with h
    exact (Except.error.injEq _ _).mp he |>.symm
  · intro hm hs
    obtain ⟨v, hv⟩ := Option.isSome_iff_exists.mp hm
    simp only [deadlines_configure, hv, Option.isNone_some, Bool.false_eq_true, if_false]
    simp [hs]
  · intro hres
    simp only [parse_timezone]
    split_ifs with h1 h2
    · rfl
    · exact absurd h2 (by simp [hres])
    · rfl

/-- Closed witness for `deadlines_configure_never_invalid_timezone`
at a failing resolver and timezone string "Foo/Bar". -/
theorem deadlines_configure_never_invalid_timezone_at :
    deadlines_configure (fun _ => false) none 7 "10:30".data (some "Foo/Bar".data)
      = .ok ⟨7, "10:30".data, "Foo/Bar".data⟩
    ∧ parse_timezone (fun _ => false) (some "Foo/Bar".data) = .utc :=
  ⟨(deadlines_configure_never_invalid_timezone (fun _ => false) none 7 "10:30".data
      "Foo/Bar".data).2.1 (by decide) (by decide),
    (deadlines_configure_never_invalid_timezone (fun _ => false) none 7 "10:30".data
      "Foo/Bar".data).2.2 (by decide)⟩

/-- C4: within one process, the digest fires at most once per
(guild, local date): when the key is not yet cached and the minute
matches, the first evaluation attempts exactly one delivery (when the
guild has upcoming events) and caches the key whatever the delivery
outcome; a second evaluation in the same matching minute attempts no
delivery, and the key stays cached, so a failed send is not retried
that day. -/
theorem digest_at_most_once_per_day :
    ∀ (cache : List (Nat × List Char)) (guild_id : Nat) (local_date : List Char)
      (rows2 ok1 ok2 : Bool),
      digestKey guild_id local_date ∉ cache →
      (digest_step cache guild_id local_date true true ok1).2 = true
      ∧ digestKey guild_id local_date ∈ (digest_step cache guild_id local_date true true ok1).1
      ∧ (digest_step (digest_step cache guild_id local_date true true ok1).1
          guild_id local_date true rows2 ok2).2 = false
      ∧ digestKey guild_id local_date ∈
          (digest_step (digest_step cache guild_id local_date true true ok1).1
            guild_id local_date true rows2 ok2).1 := by
  intro cache guild_id local_date rows2 ok1 ok2 hnot
  have h1 : digest_step cache guild_id local_date true true ok1
      = (digestKey guild_id local_date :: cache, true) := by
    simp [digest_step, hnot]
  have hmem : digestKey guild_id local_date ∈ digestKey guild_id local_date :: cache :=
    List.mem_cons_self _ _
  have h2 : digest_step (digestKey guild_id local_date :: cache) guild_id local_date
      true rows2 ok2 = (digestKey guild_id local_date :: cache, false) := by
    simp [digest_step, hmem]
  rw [h1]
  exact ⟨rfl, hmem, by rw [h2], by rw [h2]; exact hmem⟩

/-- Closed witness for `digest_at_most_once_per_day`: empty cache,
guild 5, date "2026-01-02", failed first delivery. -/
theorem digest_at_most_once_per_day_at :
    (digest_step [] 5 "2026-01-02".data true true false).2 = true
    ∧ digestKey 5 "2026-01-02".data ∈ (digest_step [] 5 "2026-01-02".data true true false).1
    ∧ (digest_step (digest_step [] 5 "2026-01-02".data true true false).1
        5 "2026-01-02".data true true true).2 = false
    ∧ digestKey 5 "2026-01-02".data ∈
        (digest_step (digest_step [] 5 "2026-01-02".data true true false).1
          5 "2026-01-02".data true true true).1 :=
  digest_at_most_once_per_day [] 5 "2026-01-02".data true false true (by decide)

theorem dropSpaces_of_all_space {s : List Char} (h : s.all isSpaceChar = true) :
    dropSpaces s = [] := by
  induction s with
  | nil => rfl
  | cons c cs ih =>
    simp only [List.all_cons, Bool.and_eq_true] at h
    simp [dropSpaces, h.1, ih h.2]

theorem matchToken_of_all_space {s : List Char} (h : s.all isSpaceChar = true) :
    matchToken s = none := by
  simp [matchToken, dropSpaces_of_all_space h]

theorem parseParts_error_of_bad {parts : List (List Char)} {p : List Char}
    (hp : p ∈ parts) (hns : p.all isSpaceChar = false) (hm : matchToken p = none) :
    parseParts parts = .error () := by
  induction parts with
  | nil => cases hp
  | cons q qs ih =>
    rcases List.mem_cons.mp hp with rfl | hp'
    · simp [parseParts, hns, hm]
    · by_cases hq : q.all isSpaceChar = true
      · simp [parseParts, hq, ih hp']
      · cases hmq : matchToken q with
        | none => simp [parseParts, hq, hmq]
        | some n => simp [parseParts, hq, hmq, ih hp']

/-- C7 counterexample: in "3d,," the empty token produced by the
doubled comma fails the grammar (`matchToken` rejects it), yet
parsing does not fail — it succeeds and returns the offset of the
earlier valid token. -/
theorem parse_offset_str_empty_token_not_rejected :
    ([] : List Char) ∈ splitComma "3d,,".data
    ∧ matchToken [] = none
    ∧ parse_offset_str "3d,,".data = .ok [259200] := by decide

/-- C7 amended: if any comma-separated token that is non-empty after
stripping fails the grammar `^\s*\d+\s*[smhdw]\s*$`, parsing fails
with InvalidDuration (`ValueError`) and produces no partial result;
tokens that strip to the empty string are skipped instead of being
rejected. -/
theorem parse_offset_str_fails_on_bad_token :
    ∀ (s p : List Char), p ∈ splitComma s → p.all isSpaceChar = false →
      matchToken p = none → parse_offset_str s = .error () := by
  intro s p hp hns hm
  simp [parse_offset_str, parseParts_error_of_bad hp hns hm]

/-- Closed witness for `parse_offset_str_fails_on_bad_token` at the
input "3d,x", whose token "x" fails the grammar. -/
theorem parse_offset_str_fails_on_bad_token_at :
    parse_offset_str "3d,x".data = .error () :=
  parse_offset_str_fails_on_bad_token "3d,x".data "x".data (by decide) (by decide)
    (by decide)

theorem sortedSetDesc_mem {l : List Nat} {x : Nat} : x ∈ sortedSetDesc l ↔ x ∈ l := by
  unfold sortedSetDesc
  rw [(List.perm_insertionSort _ _).mem_iff, List.mem_dedup]

theorem sortedSetDesc_strict_desc (l : List Nat) : (sortedSetDesc l).Pairwise (· > ·) := by
  have hs : (sortedSetDesc l).Sorted (· ≥ ·) := List.sorted_insertionSort _ _
  have hn : (sortedSetDesc l).Nodup :=
    (List.perm_insertionSort (α := Nat) (· ≥ ·) l.dedup).nodup_iff.mpr l.nodup_dedup
  exact hs.gt_of_ge hn

theorem parseParts_ok_mem {parts : List (List Char)} {out : List Nat}
    (h : parseParts parts = .ok out) :
    (∀ x ∈ out, ∃ p ∈ parts, matchToken p = some x)
    ∧ (∀ p ∈ parts, ∀ n, matchToken p = some n → n ∈ out) := by
  induction parts generalizing out with
  | nil =>
    simp only [parseParts, Except.ok.injEq] at h
    subst h
    exact ⟨fun x hx => absurd hx (List.not_mem_nil x), fun p hp => absurd hp (List.not_mem_nil p)⟩
  | cons q qs ih =>
    by_cases hq : q.all isSpaceChar = true
    · rw [parseParts, if_pos hq] at h
      obtain ⟨h1, h2⟩ := ih h
      refine ⟨fun x hx => ?_, fun p hp n hn => ?_⟩
      · obtain ⟨p, hp, hm⟩ := h1 x hx
        exact ⟨p, List.mem_cons_of_mem q hp, hm⟩
      · rcases List.mem_cons.mp hp with rfl | hp'
        · rw [matchToken_of_all_space hq] at hn
          cases hn
        · exact h2 p hp' n hn
    · rw [parseParts, if_neg hq] at h
      cases hmq : matchToken q with
      | none => rw [hmq] at h; cases h
      | some m =>
        rw [hmq] at h
        cases hrec : parseParts qs with
        | error e => rw [hrec] at h; cases h
        | ok rest =>
          rw [hrec] at h
          obtain ⟨h1, h2⟩ := ih hrec
          have hout : out = m :: rest := by
            cases h; rfl
          subst hout
          refine ⟨fun x hx => ?_, fun p hp n hn => ?_⟩
          · rcases List.mem_cons.mp hx with rfl | hx'
            · exact ⟨q, List.mem_cons_self _ _, hmq⟩
            · obtain ⟨p, hp, hm⟩ := h1 x hx'
              exact ⟨p, List.mem_cons_of_mem q hp, hm⟩
          · rcases List.mem_cons.mp hp with rfl | hp'
            · rw [hmq] at hn
              cases hn
              exact List.mem_cons_self _ _
            · exact List.mem_cons_of_mem m (h2 p hp' n hn)

/-- C8 counterexample: "0s" matches the grammar
`^\s*\d+\s*[smhdw]\s*$`, yet `parse_offset_str` returns the count 0,
which is not positive. -/
theorem parse_offset_str_zero_count :
    parse_offset_str "0s".data = .ok [0]
    ∧ matchToken "0s".data = some 0
    ∧ ¬ 0 < (0 : Nat) := by decide

/-- C8 amended: for every offset string that parses successfully, the
result is a duplicate-free sequence of second counts in strictly
descending order whose members are exactly the value × unit-multiplier
results of the grammar-matching tokens (s=1, m=60, h=3600, d=86400,
w=604800); the counts are all positive whenever every token's integer
value is positive, but a token with value 0 (such as "0s") yields the
non-positive count 0. -/
theorem parse_offset_str_desc_complete :
    ∀ (s : List Char) (l : List Nat), parse_offset_str s = .ok l →
      l.Pairwise (· > ·)
      ∧ (∀ x ∈ l, ∃ p ∈ splitComma s, matchToken p = some x)
      ∧ (∀ p ∈ splitComma s, ∀ n, matchToken p = some n → n ∈ l)
      ∧ ((∀ p ∈ splitComma s, ∀ n, matchToken p = some n → 0 < n) → ∀ x ∈ l, 0 < x) := by
  intro s l h
  rw [parse_offset_str] at h
  cases hpp : parseParts (splitComma s) with
  | error e => rw [hpp] at h; cases h
  | ok out =>
    rw [hpp] at h
    have hl : l = sortedSetDesc out := by cases h; rfl
    subst hl
    obtain ⟨h1, h2⟩ := parseParts_ok_mem hpp
    refine ⟨sortedSetDesc_strict_desc out, fun x hx => h1 x (sortedSetDesc_mem.mp hx),
      fun p hp n hn => sortedSetDesc_mem.mpr (h2 p hp n hn), fun hpos x hx => ?_⟩
    obtain ⟨p, hp, hm⟩ := h1 x (sortedSetDesc_mem.mp hx)
    exact hpos p hp x hm

/-- Closed witness for `parse_offset_str_desc_complete` at the input
"3d, 24h, 4h, 30m". -/
theorem parse_offset_str_desc_complete_at :
    [259200, 86400, 14400, 1800].Pairwise (· > ·)
    ∧ (∀ x ∈ [259200, 86400, 14400, 1800],
        ∃ p ∈ splitComma "3d, 24h, 4h, 30m".data, matchToken p = some x)
    ∧ (∀ p ∈ splitComma "3d, 24h, 4h, 30m".data, ∀ n, matchToken p = some n →
        n ∈ [259200, 86400, 14400, 1800])
    ∧ ((∀ p ∈ splitComma "3d, 24h, 4h, 30m".data, ∀ n, matchToken p = some n → 0 < n) →
        ∀ x ∈ [259200, 86400, 14400, 1800], 0 < x) :=
  parse_offset_str_desc_complete "3d, 24h, 4h, 30m".data [259200, 86400, 14400, 1800]
    (by decide)

theorem splitComma_ne_nil : ∀ s : List Char, splitComma s ≠ [] := by
  intro s
  induction s with
  | nil => simp [splitComma]
  | cons c cs ih =>
    by_cases hc : c = ','
    · simp [splitComma, hc]
    · cases hsp : splitComma cs with
      | nil => exact absurd hsp ih
      | cons p ps => simp [splitComma, hc, hsp]

theorem splitComma_chars :
    ∀ (s p : List Char), p ∈ splitComma s → ∀ c ∈ p, c ∈ s ∧ c ≠ ',' := by
  intro s
  induction s with
  | nil =>
    intro p hp c hc
    simp only [splitComma, List.mem_singleton] at hp
    subst hp
    cases hc
  | cons a s ih =>
    intro p hp c hc
    by_cases ha : a = ','
    · rw [show splitComma (a :: s) = [] :: splitComma s from by simp [splitComma, ha]] at hp
      rcases List.mem_cons.mp hp with rfl | hp'
      · cases hc
      · obtain ⟨h1, h2⟩ := ih p hp' c hc
        exact ⟨List.mem_cons_of_mem _ h1, h2⟩
    · cases hsp : splitComma s with
      | nil => exact absurd hsp (splitComma_ne_nil s)
      | cons q qs =>
        rw [show splitComma (a :: s) = (a :: q) :: qs from by
          simp [splitComma, ha, hsp]] at hp
        rcases List.mem_cons.mp hp with rfl | hp'
        · rcases List.mem_cons.mp hc with rfl | hc'
          · exact ⟨List.mem_cons_self _ _, ha⟩
          · obtain ⟨h1, h2⟩ := ih q (by rw [hsp]; exact List.mem_cons_self _ _) c hc'
            exact ⟨List.mem_cons_of_mem _ h1, h2⟩
        · obtain ⟨h1, h2⟩ := ih p (by rw [hsp]; exact List.mem_cons_of_mem _ hp') c hc
          exact ⟨List.mem_cons_of_mem _ h1, h2⟩

theorem parseParts_ok_nil_of_all_space {parts : List (List Char)}
    (h : ∀ p ∈ parts, p.all isSpaceChar = true) : parseParts parts = .ok [] := by
  induction parts with
  | nil => rfl
  | cons q qs ih =>
    rw [parseParts, if_pos (h q (List.mem_cons_self _ _))]
    exact ih fun p hp => h p (List.mem_cons_of_mem _ hp)

/-- C10 (implicit): `parse_offset_str` silently skips empty tokens,
so "3d,,2d" parses successfully; a string of only commas and
whitespace parses to the empty list without an InvalidDuration error;
and `project_create` given such a truthy custom-offset string, having
no candidate offsets, schedules the single fallback trigger at
`max(due − 300, now + 60)` instead of reporting an error. -/
theorem parse_skips_empty_tokens_fallback :
    parse_offset_str "3d,,2d".data = .ok [259200, 172800]
    ∧ (∀ s : List Char, (∀ c ∈ s, c = ',' ∨ isSpaceChar c = true) →
        parse_offset_str s = .ok [])
    ∧ (∀ (now_utc due_utc : Int) (s : List Char), s ≠ [] → now_utc + 60 < due_utc →
        parse_offset_str s = .ok [] →
        project_create now_utc due_utc (some s)
          = .ok [max (due_utc - 300) (now_utc + 60)]) := by
  refine ⟨by decide, fun s h => ?_, fun now_utc due_utc s hs hlt hparse => ?_⟩
  · have hparts : ∀ p ∈ splitComma s, p.all isSpaceChar = true := by
      intro p hp
      rw [List.all_eq_true]
      intro c hc
      obtain ⟨h1, h2⟩ := splitComma_chars s p hp c hc
      rcases h c h1 with rfl | hsp
      · exact absurd rfl h2
      · exact hsp
    rw [parse_offset_str, parseParts_ok_nil_of_all_space hparts]
    rfl
  · have htruthy : customTruthy (some s) = true := by
      simp [customTruthy, hs]
    have hco : computeOffsets now_utc due_utc (some s) = .ok [] := by
      rw [computeOffsets, if_pos htruthy]
      simp [hparse]
    rw [project_create, if_neg (by omega), hco]
    show Except.ok (reminderTimestamps now_utc due_utc []) = _
    rw [reminderTimestamps]
    simp only [List.filterMap_nil, List.isEmpty_nil, if_true]
    rw [if_pos (max_lt_iff.mpr ⟨by omega, by omega⟩)]

/-- Closed witness for `parse_skips_empty_tokens_fallback`: the
all-comma string ",,," parses to the empty list, and creating a
deadline at `now = 0`, `due = 10000` with it schedules only the
fallback trigger. -/
theorem parse_skips_empty_tokens_fallback_at :
    parse_offset_str ",,,".data = .ok []
    ∧ project_create 0 10000 (some ",,,".data) = .ok [max (10000 - 300) (0 + 60)] :=
  ⟨parse_skips_empty_tokens_fallback.2.1 ",,,".data (by decide),
    parse_skips_empty_tokens_fallback.2.2 0 10000 ",,,".data (by decide) (by decide)
      (parse_skips_empty_tokens_fallback.2.1 ",,,".data (by decide))⟩

theorem default_offsets_ge_60 :
    ∀ (now_utc due_utc : Int), ∀ x ∈ default_offsets now_utc due_utc, 60 ≤ x := by
  intro now_utc due_utc x hx
  simp only [default_offsets] at hx
  split_ifs at hx
  all_goals simp only [List.mem_cons, List.mem_singleton, List.not_mem_nil, or_false] at hx
  all_goals rcases hx with rfl | rfl | rfl <;> omega

theorem reminderTimestamps_mem {now_utc due_utc : Int} {offsets : List Int} {ts : Int}
    (h : ts ∈ reminderTimestamps now_utc due_utc offsets) :
    now_utc + 30 < ts
    ∧ (ts = max (due_utc - 300) (now_utc + 60) ∧ ts < due_utc
        ∨ ∃ off ∈ offsets, ts = due_utc - off) := by
  simp only [reminderTimestamps] at h
  by_cases he : (offsets.filterMap fun off =>
      if due_utc - off > now_utc + 30 then some (due_utc - off) else none).isEmpty
  · rw [if_pos he] at h
    split_ifs at h with hf
    · rcases List.mem_singleton.mp h with rfl
      refine ⟨?_, Or.inl ⟨rfl, hf⟩⟩
      have := le_max_right (due_utc - 300) (now_utc + 60)
      omega
    · cases h
  · rw [if_neg he] at h
    obtain ⟨off, hoff, hsome⟩ := List.mem_filterMap.mp h
    split_ifs at hsome with hgt
    cases hsome
    exact ⟨hgt, Or.inr ⟨off, hoff, rfl⟩⟩

/-- C1 counterexample: with the explicit offset "0s" (value 0, which
the grammar accepts), both createDeadline and addCustomReminder
persist a trigger at exactly the due instant — the claimed strict
upper bound `fire < due` does not hold, only the `now + 30` lower
bound is checked by the code. -/
theorem trigger_persisted_at_due_instant :
    project_create 0 100 (some "0s".data) = .ok [100]
    ∧ project_add_reminder 0 100 "0s".data = .ok [100]
    ∧ ¬ (100 : Int) < 100 := by decide

/-- C1 amended: every trigger persisted by createDeadline or
addCustomReminder satisfies `now + 30 < fire ≤ due`; the upper bound
can be attained only through an explicit offset token of value 0, and
is strict (`fire < due`) whenever the default offsets are used. -/
theorem persisted_trigger_bounds :
    ∀ (now_utc due_utc : Int) (custom : Option (List Char)) (l : List Int),
      (project_create now_utc due_utc custom = .ok l →
        ∀ ts ∈ l, now_utc + 30 < ts ∧ ts ≤ due_utc ∧ (custom = none → ts < due_utc))
      ∧ (∀ offset : List Char, project_add_reminder now_utc due_utc offset = .ok l →
          ∀ ts ∈ l, now_utc + 30 < ts ∧ ts ≤ due_utc) := by
  intro now_utc due_utc custom l
  constructor
  · intro hpc ts hts
    rw [project_create] at hpc
    split_ifs at hpc with hguard
    cases hcs : computeOffsets now_utc due_utc custom with
    | error e => rw [hcs] at hpc; cases hpc
    | ok offs =>
      rw [hcs] at hpc
      have hl : l = reminderTimestamps now_utc due_utc offs := by cases hpc; rfl
      subst hl
      have hoffs : (∀ off ∈ offs, 0 ≤ off) ∧ (custom = none → ∀ off ∈ offs, 60 ≤ off) := by
        rw [computeOffsets] at hcs
        split_ifs at hcs with htr
        · cases hps : parse_offset_str (custom.getD []) with
          | error e => rw [hps] at hcs; cases hcs
          | ok pl =>
            rw [hps] at hcs
            have ho : offs = pl.map (fun n : Nat => (n : Int)) := by cases hcs; rfl
            subst ho
            refine ⟨fun off hoff => ?_, fun hc => ?_⟩
            · obtain ⟨n, _, rfl⟩ := List.mem_map.mp hoff
              exact Int.natCast_nonneg n
            · subst hc
              simp [customTruthy] at htr
        · have ho : offs = default_offsets now_utc due_utc := by cases hcs; rfl
          subst ho
          exact ⟨fun off hoff => le_trans (by omega) (default_offsets_ge_60 _ _ off hoff),
            fun _ => default_offsets_ge_60 _ _⟩
      obtain ⟨hlow, hcase⟩ := reminderTimestamps_mem hts
      refine ⟨hlow, ?_, ?_⟩
      · rcases hcase with ⟨_, hlt⟩ | ⟨off, hoff, rfl⟩
        · omega
        · have := hoffs.1 off hoff
          omega
      · intro hc
        rcases hcase with ⟨_, hlt⟩ | ⟨off, hoff, rfl⟩
        · exact hlt
        · have := hoffs.2 hc off hoff
          omega
  · intro offset har ts hts
    rw [project_add_reminder] at har
    cases hps : parse_offset_str offset with
    | error e => rw [hps] at har; cases har
    | ok pl =>
      rw [hps] at har
      have hl : l = (pl.map (fun n : Nat => (n : Int))).filterMap (fun off =>
          if due_utc - off > now_utc + 30 then some (due_utc - off) else none) := by
        cases har; rfl
      subst hl
      obtain ⟨off, hoff, hsome⟩ := List.mem_filterMap.mp hts
      split_ifs at hsome with hgt
      cases hsome
      obtain ⟨n, _, rfl⟩ := List.mem_map.mp hoff
      exact ⟨hgt, by omega⟩

/-- Closed witness for `persisted_trigger_bounds`: the default-offset
trigger of a deadline due at 100000 (created at 0) and the trigger
added by offset "1h" both satisfy the bounds. -/
theorem persisted_trigger_bounds_at :
    ((0 : Int) + 30 < 85600 ∧ (85600 : Int) ≤ 100000
      ∧ ((none : Option (List Char)) = none → (85600 : Int) < 100000))
    ∧ ((0 : Int) + 30 < 96400 ∧ (96400 : Int) ≤ 100000) :=
  ⟨(persisted_trigger_bounds 0 100000 none [85600]).1 (by decide) 85600 (by decide),
    (persisted_trigger_bounds 0 100000 none [96400]).2 "1h".data (by decide) 96400
      (by decide)⟩

theorem markSent_rid_map (db : List TriggerRow) (i : Nat) :
    (markSent db i).map TriggerRow.rid = db.map TriggerRow.rid := by
  unfold markSent
  rw [List.map_map]
  apply List.map_congr_left
  intro r _
  by_cases h : r.rid = i <;> simp [h]

theorem processRows_rid_map (deliver : Nat → Bool) :
    ∀ (rows db : List TriggerRow),
      ((processRows deliver db rows).1).map TriggerRow.rid = db.map TriggerRow.rid := by
  intro rows
  induction rows with
  | nil => intro db; rfl
  | cons r rs ih =>
    intro db
    simp only [processRows]
    rw [ih, markSent_rid_map]

theorem processRows_attempts (deliver : Nat → Bool) :
    ∀ (rows db : List TriggerRow),
      (processRows deliver db rows).2 = rows.map TriggerRow.rid := by
  intro rows
  induction rows with
  | nil => intro db; rfl
  | cons r rs ih =>
    intro db
    simp only [processRows, List.map_cons]
    rw [ih]

theorem processRows_deliver_irrel (deliver deliver2 : Nat → Bool) :
    ∀ (rows db : List TriggerRow),
      processRows deliver db rows = processRows deliver2 db rows := by
  intro rows
  induction rows with
  | nil => intro db; rfl
  | cons r rs ih =>
    intro db
    simp only [processRows]
    rw [ih]

theorem rowSent_markSent {db : List TriggerRow} {i : Nat} (j : Nat) (h : rowSent db i) :
    rowSent (markSent db j) i := by
  intro r hr hrid
  obtain ⟨r0, hr0, rfl⟩ := List.mem_map.mp hr
  by_cases hj : r0.rid = j
  · rw [if_pos hj]
  · rw [if_neg hj] at hrid ⊢
    exact h r0 hr0 hrid

theorem rowSent_markSent_self (db : List TriggerRow) (j : Nat) :
    rowSent (markSent db j) j := by
  intro r hr hrid
  obtain ⟨r0, hr0, rfl⟩ := List.mem_map.mp hr
  by_cases hj : r0.rid = j
  · rw [if_pos hj]
  · rw [if_neg hj] at hrid
    exact absurd hrid hj

theorem rowSent_processRows (deliver : Nat → Bool) {i : Nat} :
    ∀ (rows db : List TriggerRow), rowSent db i →
      rowSent (processRows deliver db rows).1 i := by
  intro rows
  induction rows with
  | nil => intro db h; exact h
  | cons r rs ih =>
    intro db h
    simp only [processRows]
    exact ih _ (rowSent_markSent _ h)

theorem rowSent_processRows_mem (deliver : Nat → Bool) :
    ∀ (rows db : List TriggerRow) (i : Nat), i ∈ rows.map TriggerRow.rid →
      rowSent (processRows deliver db rows).1 i := by
  intro rows
  induction rows with
  | nil => intro db i hi; cases hi
  | cons r rs ih =>
    intro db i hi
    simp only [List.map_cons, List.mem_cons] at hi
    simp only [processRows]
    rcases hi with rfl | hi'
    · exact rowSent_processRows deliver rs _ (rowSent_markSent_self db r.rid)
    · exact ih _ i hi'

theorem selectDue_mem {db : List TriggerRow} {now : Int} {r : TriggerRow}
    (h : r ∈ selectDue db now) : r ∈ db ∧ r.sent = false := by
  unfold selectDue at h
  rw [(List.perm_insertionSort _ _).mem_iff] at h
  obtain ⟨hmem, hb⟩ := List.mem_filter.mp h
  simp only [Bool.and_eq_true, Bool.not_eq_true'] at hb
  exact ⟨hmem, hb.1.1⟩

theorem selectDue_rid_nodup {db : List TriggerRow} {now : Int}
    (h : (db.map TriggerRow.rid).Nodup) :
    ((selectDue db now).map TriggerRow.rid).Nodup := by
  unfold selectDue
  have hperm := (List.perm_insertionSort
    (fun a b : TriggerRow => a.remind_ts ≤ b.remind_ts)
    (db.filter (fun r => !r.sent && decide (now - 60 ≤ r.remind_ts)
      && decide (r.remind_ts ≤ now + 30)))).map TriggerRow.rid
  refine hperm.nodup_iff.mpr ?_
  exact h.sublist ((List.filter_sublist db).map TriggerRow.rid)

theorem runCycles_invariant (deliver : Nat → Bool) :
    ∀ (nows : List Int) (db : List TriggerRow) (acc : List Nat),
      (db.map TriggerRow.rid).Nodup → acc.Nodup → (∀ i ∈ acc, rowSent db i) →
      (acc ++ (runCycles deliver db nows).2).Nodup
      ∧ (∀ i ∈ acc ++ (runCycles deliver db nows).2,
          rowSent (runCycles deliver db nows).1 i) := by
  intro nows
  induction nows with
  | nil =>
    intro db acc h1 h2 h3
    simp only [runCycles, List.append_nil]
    exact ⟨h2, h3⟩
  | cons t ts ih =>
    intro db acc h1 h2 h3
    simp only [runCycles]
    have hatt : (pollCycle deliver db t).2 = (selectDue db t).map TriggerRow.rid :=
      processRows_attempts deliver (selectDue db t) db
    have h1' : (((pollCycle deliver db t).1).map TriggerRow.rid).Nodup := by
      unfold pollCycle
      rw [processRows_rid_map]
      exact h1
    have hacc' : (acc ++ (pollCycle deliver db t).2).Nodup := by
      rw [hatt]
      refine h2.append (selectDue_rid_nodup h1) ?_
      intro i hi hi'
      obtain ⟨r, hr, rfl⟩ := List.mem_map.mp hi'
      obtain ⟨hrdb, hrs⟩ := selectDue_mem hr
      have := h3 r.rid hi r hrdb rfl
      rw [this] at hrs
      cases hrs
    have h3' : ∀ i ∈ acc ++ (pollCycle deliver db t).2,
        rowSent (pollCycle deliver db t).1 i := by
      intro i hi
      rcases List.mem_append.mp hi with hi' | hi'
      · exact rowSent_processRows deliver _ _ (h3 i hi')
      · rw [hatt] at hi'
        exact rowSent_processRows_mem deliver _ _ i hi'
    have hmain := ih (pollCycle deliver db t).1 (acc ++ (pollCycle deliver db t).2)
      h1' hacc' h3'
    rw [List.append_assoc] at hmain
    exact hmain

/-- C2: in a poll cycle, every selected unsent trigger receives
exactly one delivery attempt (in fire-time order) and ends marked
sent; the resulting table and attempt list are independent of the
delivery outcomes, so one row's delivery failure blocks neither the
processing nor the marking of the later rows of the cycle; and over
any sequence of poll cycles in one process, each trigger id is
attempted at most once. -/
theorem poller_marks_each_trigger_once :
    ∀ (deliver deliver2 : Nat → Bool) (db : List TriggerRow) (now : Int) (nows : List Int),
      (pollCycle deliver db now).2 = (selectDue db now).map TriggerRow.rid
      ∧ (∀ i ∈ (selectDue db now).map TriggerRow.rid,
          rowSent (pollCycle deliver db now).1 i)
      ∧ pollCycle deliver db now = pollCycle deliver2 db now
      ∧ ((db.map TriggerRow.rid).Nodup → ((runCycles deliver db nows).2).Nodup) := by
  intro deliver deliver2 db now nows
  refine ⟨processRows_attempts deliver (selectDue db now) db,
    fun i hi => rowSent_processRows_mem deliver _ _ i hi,
    processRows_deliver_irrel deliver deliver2 (selectDue db now) db,
    fun h => ?_⟩
  have := (runCycles_invariant deliver nows db [] h List.nodup_nil
    (fun i hi => absurd hi (List.not_mem_nil i))).1
  rwa [List.nil_append] at this

/-- Closed witness for `poller_marks_each_trigger_once`: two unsent
triggers due near `now = 15`, one failing delivery, polled twice. -/
theorem poller_marks_each_trigger_once_at :
    (pollCycle (fun _ => false) [⟨1, 10, false⟩, ⟨2, 20, false⟩] 15).2
      = (selectDue [⟨1, 10, false⟩, ⟨2, 20, false⟩] 15).map TriggerRow.rid
    ∧ (∀ i ∈ (selectDue [⟨1, 10, false⟩, ⟨2, 20, false⟩] 15).map TriggerRow.rid,
        rowSent (pollCycle (fun _ => false) [⟨1, 10, false⟩, ⟨2, 20, false⟩] 15).1 i)
    ∧ pollCycle (fun _ => false) [⟨1, 10, false⟩, ⟨2, 20, false⟩] 15
        = pollCycle (fun _ => true) [⟨1, 10, false⟩, ⟨2, 20, false⟩] 15
    ∧ ((runCycles (fun _ => false) [⟨1, 10, false⟩, ⟨2, 20, false⟩] [15, 15]).2).Nodup := by
  have h := poller_marks_each_trigger_once (fun _ => false) (fun _ => true)
    [⟨1, 10, false⟩, ⟨2, 20, false⟩] 15 [15, 15]
  exact ⟨h.1, h.2.1, h.2.2.1, h.2.2.2 (by decide)⟩

end DCReminder
